import Mathlib

/-!
# Mandelbrot escape-time renderer: tiled (`step3c`) and single-pass (`step2`)

A shallow embedding of `src/step3c/mandelbrot.cpp` and `src/step2/mandelbrot.cpp`.

* `double` is an arbitrary carrier `α` with the operations the program uses
  (`+`, `-`, `*`, `<`, decimal literals, conversion from an integer).  Results that do not
  depend on how those operations round are proved for every such carrier; results that need
  a property of the arithmetic (a comparison between constants, sign symmetry) take it as a
  hypothesis; results about concrete orbits are proved for exact arithmetic, `α = ℚ`.
* `int` is `Int`; `unsigned int` is a `Nat` reduced modulo `2 ^ 32` wherever the program
  computes in that type; `unsigned char` is a `Nat` reduced modulo `256`.
* Pixel counts (`pixels_x`, `pixels_y`) and loop indices are the non-negative values of the
  corresponding `int` variables, kept as `Nat`.
* The image buffer is a map from linear offset to byte; OpenACC pragmas are ignored, so the
  loop nests are the sequential programs obtained by erasing them.
-/

namespace Mandelbrot

/-! ## Machine integers -/

/-- Conversion of an `int` to `unsigned int` (reduction modulo `2 ^ 32`). -/
def toUnsigned (i : Int) : Nat := (i % 4294967296).toNat

/-- Multiplication in `unsigned int`. -/
def umul (a b : Nat) : Nat := (a * b) % 4294967296

/-- Addition in `unsigned int`. -/
def uadd (a b : Nat) : Nat := (a + b) % 4294967296

/-- Conversion of an `unsigned int` to `unsigned char` (reduction modulo `256`). -/
def toUChar (a : Nat) : Nat := a % 256

/-! ## `CalculatePixel` -/

section Evaluator

variable {α : Type} [OfScientific α] [Add α] [Sub α] [Mul α] [LT α]
  [DecidableRel (fun a b : α => a < b)]

/-- The local variables of `CalculatePixel` that change in the loop. -/
structure PixelState (α : Type) where
  x : α
  y : α
  dwell : Int

/-- The constant `escape_radius` of `CalculatePixel`. -/
def escape_radius : α := 2.0

/-- The condition of the `while` loop of `CalculatePixel`. -/
def loopCond (max_iter : Int) (s : PixelState α) : Prop :=
  s.x * s.x + s.y * s.y < (escape_radius : α) * escape_radius ∧ s.dwell < max_iter

instance (max_iter : Int) (s : PixelState α) : Decidable (loopCond max_iter s) := by
  unfold loopCond
  exact instDecidableAnd

/-- The body of the `while` loop of `CalculatePixel`. -/
def loopBody (xO yO : α) (s : PixelState α) : PixelState α :=
  let tmp_x := s.x * s.x - s.y * s.y + xO
  let y := 2.0 * s.x * s.y + yO
  let x := tmp_x
  { x := x, y := y, dwell := s.dwell + 1 }

/-- The `while` loop of `CalculatePixel`, run from state `s`: the state at loop exit together
with the number of times the body was executed.  The recursion decreases
`max_iter - dwell`. -/
def whileLoop (xO yO : α) (max_iter : Int) (s : PixelState α) : PixelState α × Nat :=
  if h : loopCond max_iter s then
    let r := whileLoop xO yO max_iter (loopBody xO yO s)
    (r.1, r.2 + 1)
  else (s, 0)
termination_by (max_iter - s.dwell).toNat
decreasing_by
  simp only [loopBody]
  have := h.2
  omega

/-- The state of `CalculatePixel` on entry to its loop. -/
def initState : PixelState α := { x := 0.0, y := 0.0, dwell := 0 }

/-- `CalculatePixel(xO, yO, pixel_size, max_iter)`: the `int` value of `dwell` at loop exit,
returned as `unsigned int`. -/
def CalculatePixel (xO yO _pixel_size : α) (max_iter : Int) : Nat :=
  toUnsigned (whileLoop xO yO max_iter initState).1.dwell

/-- Number of executions of the loop body in `CalculatePixel(xO, yO, pixel_size, max_iter)`. -/
def CalculatePixel_iterations (xO yO _pixel_size : α) (max_iter : Int) : Nat :=
  (whileLoop xO yO max_iter initState).2

end Evaluator

/-! ## Colour mapping -/

/-- The value stored into `pixels[n_y * pixels_x + n_x]` for an escape count `iteration`
(`unsigned int`) and the constant `max_iterations` (`int`): the comparison and the quotient
`255*iteration/max_iterations` are evaluated in `unsigned int`, the result is narrowed to
`unsigned char`. -/
def pixelColor (iteration : Nat) (max_iterations : Int) : Nat :=
  if iteration ≥ toUnsigned max_iterations then
    toUChar 0
  else
    toUChar (umul 255 iteration / toUnsigned max_iterations)

/-! ## The loop nests of `main` -/

/-- The image buffer `pixels`: the byte held at each linear offset. -/
abbrev Buffer := Nat → Nat

/-- The assignment `pixels[i] = v`. -/
def Buffer.write (pixels : Buffer) (i v : Nat) : Buffer :=
  fun j => if j = i then v else pixels j

/-- A counted loop `for (i = start; ...; i++)` that runs its body `count` times in sequence,
threading the program state through. -/
def forCount {σ : Type} (body : Nat → σ → σ) : Nat → Nat → σ → σ
  | _, 0, s => s
  | start, count + 1, s => forCount body (start + 1) count (body start s)

/-- The loop `for (i = start; i < stop; i++) body`. -/
def forLoop {σ : Type} (start stop : Nat) (body : Nat → σ → σ) (s : σ) : σ :=
  forCount body start (stop - start) s

/-- The quantities of `main` that the loop nests read: the viewport and the iteration cap. -/
structure Viewport (α : Type) where
  x_min : α
  y_min : α
  pixel_size : α
  pixels_x : Nat
  pixels_y : Nat
  max_iterations : Int

section Main

variable {α : Type} [OfScientific α] [Add α] [Sub α] [Mul α] [LT α]
  [DecidableRel (fun a b : α => a < b)] [NatCast α]

/-- The body of the innermost loop: the store performed for pixel `(n_x, n_y)`. -/
def pixelBody (v : Viewport α) (n_y n_x : Nat) (pixels : Buffer) : Buffer :=
  let x := v.x_min + (n_x : α) * v.pixel_size
  let y := v.y_min + (n_y : α) * v.pixel_size
  let iteration := CalculatePixel x y v.pixel_size v.max_iterations
  pixels.write (n_y * v.pixels_x + n_x) (pixelColor iteration v.max_iterations)

/-- The loop over `n_x` for one row `n_y`. -/
def rowLoop (v : Viewport α) (n_y : Nat) (pixels : Buffer) : Buffer :=
  forLoop 0 v.pixels_x (pixelBody v n_y) pixels

/-- The loop nest of `step2/mandelbrot.cpp`: rows `[0, pixels_y)`, then columns. -/
def step2_loops (v : Viewport α) (pixels : Buffer) : Buffer :=
  forLoop 0 v.pixels_y (rowLoop v) pixels

/-- The variable `block_height = pixels_y / num_blocks` of `step3c`, an `unsigned int`
division. -/
def block_height (pixels_y num_blocks : Nat) : Nat :=
  toUnsigned pixels_y / num_blocks

/-- The variable `y_start = block*block_height` of `step3c`. -/
def y_start (block block_height : Nat) : Nat :=
  umul block block_height

/-- The variable `y_stop = y_start + block_height` of `step3c`. -/
def y_stop (block block_height : Nat) : Nat :=
  uadd (y_start block block_height) block_height

/-- The body of the block loop of `step3c`: rows `[y_start, y_stop)`, then columns. -/
def blockBody (v : Viewport α) (num_blocks block : Nat) (pixels : Buffer) : Buffer :=
  forLoop (y_start block (block_height v.pixels_y num_blocks))
    (y_stop block (block_height v.pixels_y num_blocks)) (rowLoop v) pixels

/-- The loop nest of `step3c/mandelbrot.cpp`: blocks `[0, num_blocks)`, then rows, then
columns. -/
def step3c_loops (v : Viewport α) (num_blocks : Nat) (pixels : Buffer) : Buffer :=
  forLoop 0 num_blocks (blockBody v num_blocks) pixels

end Main

/-! ## Colour value before narrowing, transfers, lanes and the output file -/

/-- The value of the right-hand side assigned to `pixels[n_y * pixels_x + n_x]` before it is
converted to `unsigned char`: the constant `0`, or the `unsigned int` quotient
`255*iteration/max_iterations`. -/
def pixelColorWide (iteration : Nat) (max_iterations : Int) : Nat :=
  if iteration ≥ toUnsigned max_iterations then
    0
  else
    umul 255 iteration / toUnsigned max_iterations

/-- The argument `block % 3 + 1` of the `async` clause on the `parallel loop` of block
`block` in `step3c`. -/
def compute_async (block : Nat) : Nat := block % 3 + 1

/-- The argument `block % 3 + 1` of the `async` clause on the `update self` of block `block`
in `step3c`. -/
def update_async (block : Nat) : Nat := block % 3 + 1

/-- The characters produced by `fprintf` for a format made of ordinary characters and `%d`
conversions, the arguments being non-negative `int` values (printed in decimal). -/
def fprintf_chars : List Char → List Nat → List Char
  | [], _ => []
  | '%' :: 'd' :: fmt, a :: args => (Nat.repr a).toList ++ fprintf_chars fmt args
  | c :: fmt, args => c :: fprintf_chars fmt args

/-- The format string `"P5\n%d %d\n%d\n"` of the header written by `main`. -/
def pgm_format : List Char :=
  ['P', '5', '\n', '%', 'd', ' ', '%', 'd', '\n', '%', 'd', '\n']

/-- The header `fprintf(file, "P5\n%d %d\n%d\n", pixels_x, pixels_y, 255)`. -/
def pgm_header (pixels_x pixels_y : Nat) : List Char :=
  fprintf_chars pgm_format [pixels_x, pixels_y, 255]

/-- The bytes `fwrite(pixels, sizeof(unsigned char), pixels_x*pixels_y, file)` writes: the
first `pixels_x*pixels_y` bytes of the buffer, in order. -/
def pgm_payload (pixels_x pixels_y : Nat) (pixels : Buffer) : List Nat :=
  (List.range (pixels_x * pixels_y)).map pixels

/-- The content of `mandelbrot.pgm` after `main` (the file is opened with `"wb"`, so the
bytes are written unchanged): header, then payload. -/
def pgm_file (pixels_x pixels_y : Nat) (pixels : Buffer) : List Nat :=
  (pgm_header pixels_x pixels_y).map Char.toNat ++ pgm_payload pixels_x pixels_y pixels

/-! ## Sign symmetry of the arithmetic -/

/-- Sign symmetry of an arithmetic standing for `double`, stated up to a relation `E` of
numerical equality (for IEEE doubles: equal as numbers, so that `+0` and `-0` are related, or
both NaN; for exact arithmetic: equality). The operations `+`, `-`, `*` and the comparison `<`
used by `CalculatePixel` respect `E`, and negation commutes with the (rounded) product and
sum, as it does under round-to-nearest. -/
structure SignSymmetric {α : Type} [OfScientific α] [Add α] [Sub α] [Mul α] [LT α] [Neg α]
    (E : α → α → Prop) : Prop where
  refl : ∀ a : α, E a a
  trans : ∀ {a b c : α}, E a b → E b c → E a c
  add_congr : ∀ {a a' b b' : α}, E a a' → E b b' → E (a + b) (a' + b')
  sub_congr : ∀ {a a' b b' : α}, E a a' → E b b' → E (a - b) (a' - b')
  mul_congr : ∀ {a a' b b' : α}, E a a' → E b b' → E (a * b) (a' * b')
  lt_congr : ∀ {a a' b b' : α}, E a a' → E b b' → (a < b ↔ a' < b')
  neg_mul_neg : ∀ a : α, E ((-a) * (-a)) (a * a)
  mul_neg : ∀ a b : α, E (a * (-b)) (-(a * b))
  neg_add_neg : ∀ a b : α, E ((-a) + (-b)) (-(a + b))
  zero_neg : E (0.0 : α) (-(0.0 : α))

/-! ## Sample inputs -/

/-- A small viewport over exact arithmetic, used to instantiate the general statements. -/
def sampleViewport : Viewport ℚ :=
  { x_min := -2.125, y_min := -1.0, pixel_size := 0.5, pixels_x := 3, pixels_y := 4,
    max_iterations := 50 }

/-- A buffer holding `7` at every offset, standing for arbitrary initial content. -/
def sampleBuffer : Buffer := fun _ => 7

/-! ## Facts about machine integers and counted loops -/

theorem toUnsigned_of_nonneg_lt (i : Int) (h0 : 0 ≤ i) (h1 : i < 4294967296) :
    (toUnsigned i : Int) = i := by
  unfold toUnsigned
  omega

theorem toUnsigned_natCast_lt (n : Nat) (h : n < 4294967296) : toUnsigned (n : Int) = n := by
  unfold toUnsigned
  omega

theorem toUnsigned_le_of_nonneg (i : Int) (h0 : 0 ≤ i) : (toUnsigned i : Int) ≤ i := by
  unfold toUnsigned
  omega

theorem forCount_add {σ : Type} (body : Nat → σ → σ) (m : Nat) :
    ∀ (n start : Nat) (s : σ),
      forCount body start (n + m) s = forCount body (start + n) m (forCount body start n s) := by
  intro n
  induction n with
  | zero => intro start s; simp [forCount]
  | succ k ih =>
    intro start s
    have h1 : k + 1 + m = (k + m) + 1 := by omega
    have h2 : start + (k + 1) = start + 1 + k := by omega
    rw [h1, h2]
    simp only [forCount]
    exact ih (start + 1) (body start s)

theorem loopBody_dwell {α : Type} [OfScientific α] [Add α] [Sub α] [Mul α] (xO yO : α)
    (s : PixelState α) : (loopBody xO yO s).dwell = s.dwell + 1 := rfl

/-! ## Facts about the `while` loop -/

section EvaluatorFacts

variable {α : Type} [OfScientific α] [Add α] [Sub α] [Mul α] [LT α]
  [DecidableRel (fun a b : α => a < b)]

theorem whileLoop_of_cond (xO yO : α) (max_iter : Int) (s : PixelState α)
    (h : loopCond max_iter s) :
    whileLoop xO yO max_iter s =
      ((whileLoop xO yO max_iter (loopBody xO yO s)).1,
        (whileLoop xO yO max_iter (loopBody xO yO s)).2 + 1) := by
  rw [whileLoop]
  simp [h]

theorem whileLoop_of_not_cond (xO yO : α) (max_iter : Int) (s : PixelState α)
    (h : ¬ loopCond max_iter s) :
    whileLoop xO yO max_iter s = (s, 0) := by
  rw [whileLoop]
  simp [h]

/-- Each execution of the body increments `dwell`, and the body never runs once `dwell`
has reached `max_iter`. -/
theorem whileLoop_spec (xO yO : α) (max_iter : Int) :
    ∀ (n : Nat) (s : PixelState α), (max_iter - s.dwell).toNat = n →
      (whileLoop xO yO max_iter s).1.dwell = s.dwell + (whileLoop xO yO max_iter s).2 ∧
      (whileLoop xO yO max_iter s).2 ≤ n := by
  intro n
  induction n with
  | zero =>
    intro s hs
    have hc : ¬ loopCond max_iter s := by
      intro h
      have := h.2
      omega
    rw [whileLoop_of_not_cond xO yO max_iter s hc]
    simp
  | succ k ih =>
    intro s hs
    by_cases hc : loopCond max_iter s
    · have hk : (max_iter - (loopBody xO yO s).dwell).toNat = k := by
        rw [loopBody_dwell]
        omega
      obtain ⟨h1, h2⟩ := ih (loopBody xO yO s) hk
      rw [whileLoop_of_cond xO yO max_iter s hc]
      simp only
      rw [h1, loopBody_dwell]
      constructor
      · push_cast
        ring
      · omega
    · rw [whileLoop_of_not_cond xO yO max_iter s hc]
      simp

end EvaluatorFacts

/-! ## The `while` loop over exact arithmetic -/

theorem escape_radius_sq_rat : (escape_radius : ℚ) * escape_radius = 4 := by
  unfold escape_radius
  norm_num

theorem loopCond_rat_iff (max_iter : Int) (s : PixelState ℚ) :
    loopCond max_iter s ↔ s.x * s.x + s.y * s.y < 4 ∧ s.dwell < max_iter := by
  unfold loopCond
  rw [escape_radius_sq_rat]

theorem loopBody_rat_x (xO yO : ℚ) (s : PixelState ℚ) :
    (loopBody xO yO s).x = s.x * s.x - s.y * s.y + xO := rfl

theorem loopBody_rat_y (xO yO : ℚ) (s : PixelState ℚ) :
    (loopBody xO yO s).y = 2 * s.x * s.y + yO := by
  show 2.0 * s.x * s.y + yO = 2 * s.x * s.y + yO
  norm_num

theorem initState_rat_x : (initState : PixelState ℚ).x = 0 := by
  show (0.0 : ℚ) = 0
  norm_num

theorem initState_rat_y : (initState : PixelState ℚ).y = 0 := by
  show (0.0 : ℚ) = 0
  norm_num

/-- An orbit confined to a region inside the escape circle runs until `dwell` reaches the
cap, and leaves the loop inside that region. -/
theorem whileLoop_confined (xO yO : ℚ) (max_iter : Int) (P : ℚ → ℚ → Prop)
    (hstep : ∀ s : PixelState ℚ, P s.x s.y → P (loopBody xO yO s).x (loopBody xO yO s).y)
    (hin : ∀ x y : ℚ, P x y → x * x + y * y < 4) :
    ∀ (n : Nat) (s : PixelState ℚ), (max_iter - s.dwell).toNat = n → P s.x s.y →
      s.dwell ≤ max_iter →
      (whileLoop xO yO max_iter s).1.dwell = max_iter ∧
        P (whileLoop xO yO max_iter s).1.x (whileLoop xO yO max_iter s).1.y := by
  intro n
  induction n with
  | zero =>
    intro s hs hP hle
    have hc : ¬ loopCond max_iter s := by
      intro h
      have := h.2
      omega
    rw [whileLoop_of_not_cond xO yO max_iter s hc]
    exact ⟨by show s.dwell = max_iter; omega, hP⟩
  | succ k ih =>
    intro s hs hP hle
    have hc : loopCond max_iter s := by
      rw [loopCond_rat_iff]
      exact ⟨hin s.x s.y hP, by omega⟩
    have hk : (max_iter - (loopBody xO yO s).dwell).toNat = k := by
      rw [loopBody_dwell]
      omega
    have hle2 : (loopBody xO yO s).dwell ≤ max_iter := by
      rw [loopBody_dwell]
      omega
    rw [whileLoop_of_cond xO yO max_iter s hc]
    exact ih (loopBody xO yO s) hk (hstep s hP) hle2

/-- The value returned by `CalculatePixel` for a point whose orbit stays confined. -/
theorem CalculatePixel_confined (xO yO pixel_size : ℚ) (max_iter : Int) (P : ℚ → ℚ → Prop)
    (hstep : ∀ s : PixelState ℚ, P s.x s.y → P (loopBody xO yO s).x (loopBody xO yO s).y)
    (hin : ∀ x y : ℚ, P x y → x * x + y * y < 4) (h00 : P 0 0)
    (h0 : 0 ≤ max_iter) (h1 : max_iter ≤ 2147483647) :
    (CalculatePixel xO yO pixel_size max_iter : Int) = max_iter := by
  have hP : P (initState : PixelState ℚ).x (initState : PixelState ℚ).y := by
    rw [initState_rat_x, initState_rat_y]
    exact h00
  have hd : (initState : PixelState ℚ).dwell ≤ max_iter := h0
  obtain ⟨h, _⟩ := whileLoop_confined xO yO max_iter P hstep hin _ initState rfl hP hd
  unfold CalculatePixel
  rw [h]
  exact toUnsigned_of_nonneg_lt max_iter h0 (by omega)

/-- The orbit of `-0.75 + 0i` stays in the real interval `[-3/4, 0]`. -/
theorem center_orbit_step (s : PixelState ℚ)
    (h : -3 / 4 ≤ s.x ∧ s.x ≤ 0 ∧ s.y = 0) :
    -3 / 4 ≤ (loopBody (-0.75) 0.0 s).x ∧ (loopBody (-0.75) 0.0 s).x ≤ 0 ∧
      (loopBody (-0.75) 0.0 s).y = 0 := by
  obtain ⟨h1, h2, h3⟩ := h
  rw [loopBody_rat_x, loopBody_rat_y, h3]
  refine ⟨?_, ?_, ?_⟩
  · norm_num
    nlinarith [mul_self_nonneg s.x]
  · norm_num
    nlinarith
  · norm_num

/-- The orbit of `0 + 0i` stays at the origin. -/
theorem origin_orbit_step (s : PixelState ℚ) (h : s.x = 0 ∧ s.y = 0) :
    (loopBody 0.0 0.0 s).x = 0 ∧ (loopBody 0.0 0.0 s).y = 0 := by
  obtain ⟨h1, h2⟩ := h
  rw [loopBody_rat_x, loopBody_rat_y, h1, h2]
  constructor <;> norm_num

/-- The loop for `2 + 0i`: one iteration, leaving `z = (2, 0)` with `dwell = 1`. -/
theorem whileLoop_two (max_iter : Int) (h : 1 ≤ max_iter) :
    whileLoop (2.0 : ℚ) 0.0 max_iter initState = (loopBody 2.0 0.0 initState, 1) := by
  have hc0 : loopCond max_iter (initState : PixelState ℚ) := by
    rw [loopCond_rat_iff, initState_rat_x, initState_rat_y]
    refine ⟨by norm_num, ?_⟩
    show (0 : Int) < max_iter
    omega
  have hc1 : ¬ loopCond max_iter (loopBody (2.0 : ℚ) 0.0 initState) := by
    rw [loopCond_rat_iff, loopBody_rat_x, loopBody_rat_y, initState_rat_x, initState_rat_y]
    norm_num
  rw [whileLoop_of_cond _ _ _ _ hc0, whileLoop_of_not_cond _ _ _ _ hc1]

/-! ## Facts about the tiling -/

/-- Without wrap-around, `num_blocks` tiles of height `block_height` fit into the rows. -/
theorem block_height_mul_le (pixels_y num_blocks : Nat) :
    num_blocks * block_height pixels_y num_blocks < 4294967296 := by
  unfold block_height toUnsigned
  have h1 : ((pixels_y : Int) % 4294967296).toNat < 4294967296 := by omega
  have h2 := Nat.mul_div_le ((pixels_y : Int) % 4294967296).toNat num_blocks
  omega

theorem y_start_eq (pixels_y num_blocks block : Nat) (hb : block < num_blocks) :
    y_start block (block_height pixels_y num_blocks) =
      block * block_height pixels_y num_blocks := by
  have h := block_height_mul_le pixels_y num_blocks
  have h2 : block * block_height pixels_y num_blocks ≤
      num_blocks * block_height pixels_y num_blocks :=
    Nat.mul_le_mul_right _ (Nat.le_of_lt hb)
  unfold y_start umul
  exact Nat.mod_eq_of_lt (by omega)

theorem y_stop_eq (pixels_y num_blocks block : Nat) (hb : block < num_blocks) :
    y_stop block (block_height pixels_y num_blocks) =
      (block + 1) * block_height pixels_y num_blocks := by
  have h := block_height_mul_le pixels_y num_blocks
  have h2 : (block + 1) * block_height pixels_y num_blocks ≤
      num_blocks * block_height pixels_y num_blocks :=
    Nat.mul_le_mul_right _ hb
  unfold y_stop uadd
  rw [y_start_eq pixels_y num_blocks block hb]
  have h3 : block * block_height pixels_y num_blocks + block_height pixels_y num_blocks =
      (block + 1) * block_height pixels_y num_blocks := by ring
  rw [h3]
  exact Nat.mod_eq_of_lt (by omega)

theorem block_height_of_dvd (pixels_y num_blocks : Nat) (hy : pixels_y < 2147483648)
    (hd : num_blocks ∣ pixels_y) :
    num_blocks * block_height pixels_y num_blocks = pixels_y := by
  unfold block_height
  rw [toUnsigned_natCast_lt pixels_y (by omega)]
  exact Nat.mul_div_cancel' hd

theorem toUnsigned_eq_toNat (i : Int) (h0 : 0 ≤ i) (h1 : i < 4294967296) :
    toUnsigned i = i.toNat := by
  unfold toUnsigned
  omega

/-- The colour mapping when the product `255*iteration` does not wrap. -/
theorem pixelColor_of_lt (iteration m : Nat) (hm : m < 4294967296)
    (hlt : iteration < m) (hw : 255 * iteration < 4294967296) :
    pixelColor iteration (m : Int) = 255 * iteration / m := by
  unfold pixelColor
  rw [toUnsigned_natCast_lt m hm, if_neg (by omega)]
  unfold umul toUChar
  rw [Nat.mod_eq_of_lt hw]
  apply Nat.mod_eq_of_lt
  have hq : 255 * iteration / m < 255 := by
    rw [Nat.div_lt_iff_lt_mul (by omega)]
    omega
  omega

/-- The colour mapping at or above the cap. -/
theorem pixelColor_of_ge (iteration m : Nat) (hm : m < 4294967296) (hge : m ≤ iteration) :
    pixelColor iteration (m : Int) = 0 := by
  unfold pixelColor
  rw [toUnsigned_natCast_lt m hm, if_pos hge]
  rfl

/-- A row lies in the range of at most one block. -/
theorem block_unique_of_row (pixels_y num_blocks b₁ b₂ r : Nat)
    (h1 : b₁ < num_blocks) (h2 : b₂ < num_blocks)
    (hr1 : y_start b₁ (block_height pixels_y num_blocks) ≤ r ∧
      r < y_stop b₁ (block_height pixels_y num_blocks))
    (hr2 : y_start b₂ (block_height pixels_y num_blocks) ≤ r ∧
      r < y_stop b₂ (block_height pixels_y num_blocks)) : b₁ = b₂ := by
  rw [y_start_eq pixels_y num_blocks b₁ h1, y_stop_eq pixels_y num_blocks b₁ h1] at hr1
  rw [y_start_eq pixels_y num_blocks b₂ h2, y_stop_eq pixels_y num_blocks b₂ h2] at hr2
  rcases Nat.lt_trichotomy b₁ b₂ with hlt | heq | hlt
  · have : (b₁ + 1) * block_height pixels_y num_blocks ≤
        b₂ * block_height pixels_y num_blocks := Nat.mul_le_mul_right _ hlt
    omega
  · exact heq
  · have : (b₂ + 1) * block_height pixels_y num_blocks ≤
        b₁ * block_height pixels_y num_blocks := Nat.mul_le_mul_right _ hlt
    omega

/-- A linear offset `n_y * pixels_x + n_x` with `n_x < pixels_x` determines its row. -/
theorem row_unique_of_offset (pixels_x y₁ x₁ y₂ x₂ : Nat) (hx1 : x₁ < pixels_x)
    (hx2 : x₂ < pixels_x) (h : y₁ * pixels_x + x₁ = y₂ * pixels_x + x₂) : y₁ = y₂ := by
  rcases Nat.lt_trichotomy y₁ y₂ with hlt | heq | hlt
  · have : (y₁ + 1) * pixels_x ≤ y₂ * pixels_x := Nat.mul_le_mul_right _ hlt
    have hexp : (y₁ + 1) * pixels_x = y₁ * pixels_x + pixels_x := by ring
    omega
  · exact heq
  · have : (y₂ + 1) * pixels_x ≤ y₁ * pixels_x := Nat.mul_le_mul_right _ hlt
    have hexp : (y₂ + 1) * pixels_x = y₂ * pixels_x + pixels_x := by ring
    omega

section MainFacts

variable {α : Type} [OfScientific α] [Add α] [Sub α] [Mul α] [LT α]
  [DecidableRel (fun a b : α => a < b)] [NatCast α]

/-- The first `k` blocks of the tiled nest do what the first `k * block_height` rows of the
single-pass nest do. -/
theorem blocks_eq_rows (v : Viewport α) (num_blocks : Nat) (pixels : Buffer) :
    ∀ k : Nat, k ≤ num_blocks →
      forCount (blockBody v num_blocks) 0 k pixels =
        forCount (rowLoop v) 0 (k * block_height v.pixels_y num_blocks) pixels := by
  intro k
  induction k with
  | zero => intro _; simp [forCount]
  | succ j ih =>
    intro hj
    have hforth := forCount_add (blockBody v num_blocks) 1 j 0 pixels
    rw [hforth, ih (by omega)]
    have hsplit : (j + 1) * block_height v.pixels_y num_blocks =
        j * block_height v.pixels_y num_blocks + block_height v.pixels_y num_blocks := by ring
    rw [hsplit, forCount_add (rowLoop v) (block_height v.pixels_y num_blocks)]
    simp only [forCount, blockBody, forLoop, Nat.zero_add]
    rw [y_start_eq v.pixels_y num_blocks j (by omega),
      y_stop_eq v.pixels_y num_blocks j (by omega)]
    have hlen : (j + 1) * block_height v.pixels_y num_blocks -
        j * block_height v.pixels_y num_blocks = block_height v.pixels_y num_blocks := by
      rw [hsplit]; omega
    rw [hlen]

theorem step3c_loops_eq_step2_loops (v : Viewport α) (num_blocks : Nat) (pixels : Buffer)
    (hy : v.pixels_y < 2147483648) (hd : num_blocks ∣ v.pixels_y) :
    step3c_loops v num_blocks pixels = step2_loops v pixels := by
  unfold step3c_loops step2_loops forLoop
  rw [Nat.sub_zero, Nat.sub_zero, blocks_eq_rows v num_blocks pixels num_blocks (le_refl _),
    block_height_of_dvd v.pixels_y num_blocks hy hd]

end MainFacts

/-! ## Frame facts: what the loop nests leave untouched -/

/-- A counted loop whose body never changes offset `i` leaves offset `i` as it was. -/
theorem forCount_unchanged (body : Nat → Buffer → Buffer) (i : Nat) :
    ∀ (count start : Nat) (pixels : Buffer),
      (∀ k : Nat, start ≤ k → k < start + count → ∀ buf : Buffer, body k buf i = buf i) →
      forCount body start count pixels i = pixels i := by
  intro count
  induction count with
  | zero => intro start pixels _; rfl
  | succ c ih =>
    intro start pixels h
    simp only [forCount]
    rw [ih (start + 1) (body start pixels) (fun k hk1 hk2 buf => h k (by omega) (by omega) buf)]
    exact h start (le_refl _) (by omega) pixels

theorem Buffer.write_of_ne (pixels : Buffer) (i j v : Nat) (h : j ≠ i) :
    pixels.write i v j = pixels j := by
  unfold Buffer.write
  rw [if_neg h]

section FrameFacts

variable {α : Type} [OfScientific α] [Add α] [Sub α] [Mul α] [LT α]
  [DecidableRel (fun a b : α => a < b)] [NatCast α]

/-- The loop over one row writes only offsets of that row. -/
theorem rowLoop_unchanged (v : Viewport α) (n_y i : Nat) (pixels : Buffer)
    (h : i < n_y * v.pixels_x ∨ (n_y + 1) * v.pixels_x ≤ i) :
    rowLoop v n_y pixels i = pixels i := by
  unfold rowLoop forLoop
  apply forCount_unchanged
  intro k _ hk buf
  unfold pixelBody
  apply Buffer.write_of_ne
  have hexp : (n_y + 1) * v.pixels_x = n_y * v.pixels_x + v.pixels_x := by ring
  omega

/-- Block `block` writes no offset at or beyond row `num_blocks * block_height`. -/
theorem blockBody_unchanged (v : Viewport α) (num_blocks block i : Nat) (pixels : Buffer)
    (hb : block < num_blocks)
    (h : num_blocks * block_height v.pixels_y num_blocks * v.pixels_x ≤ i) :
    blockBody v num_blocks block pixels i = pixels i := by
  unfold blockBody forLoop
  apply forCount_unchanged
  intro k hk1 hk2 buf
  rw [y_start_eq v.pixels_y num_blocks block hb, y_stop_eq v.pixels_y num_blocks block hb]
    at hk2
  rw [y_start_eq v.pixels_y num_blocks block hb] at hk1
  have h1 : (block + 1) * block_height v.pixels_y num_blocks ≤
      num_blocks * block_height v.pixels_y num_blocks := Nat.mul_le_mul_right _ hb
  have h2 : block * block_height v.pixels_y num_blocks ≤
      (block + 1) * block_height v.pixels_y num_blocks := Nat.mul_le_mul_right _ (by omega)
  have h3 : (k + 1) * v.pixels_x ≤
      num_blocks * block_height v.pixels_y num_blocks * v.pixels_x :=
    Nat.mul_le_mul_right _ (by omega)
  exact rowLoop_unchanged v k i buf (Or.inr (by omega))

/-- The tiled loop nest writes no offset at or beyond row `num_blocks * block_height`. -/
theorem step3c_loops_unchanged (v : Viewport α) (num_blocks i : Nat) (pixels : Buffer)
    (h : num_blocks * block_height v.pixels_y num_blocks * v.pixels_x ≤ i) :
    step3c_loops v num_blocks pixels i = pixels i := by
  unfold step3c_loops forLoop
  apply forCount_unchanged
  intro k _ hk buf
  exact blockBody_unchanged v num_blocks k i buf (by omega) h

end FrameFacts

/-! ## Footprint facts: what the loop nests store -/

section FootprintFacts

variable {α : Type} [OfScientific α] [Add α] [Sub α] [Mul α] [LT α]
  [DecidableRel (fun a b : α => a < b)] [NatCast α]

end FootprintFacts

/-! ## Facts about the transferred slice -/

section CapFacts

variable {α : Type} [OfScientific α] [Add α] [Sub α] [Mul α] [LT α]
  [DecidableRel (fun a b : α => a < b)]

/-- For an `int` cap `max_iter ≥ 0` the conversion of `dwell` to `unsigned int` changes
nothing, and `dwell` lies in `[0, max_iter]`. -/
theorem CalculatePixel_cast (xO yO pixel_size : α) (max_iter : Int)
    (h0 : 0 ≤ max_iter) (h1 : max_iter ≤ 2147483647) :
    (CalculatePixel xO yO pixel_size max_iter : Int) =
        (whileLoop xO yO max_iter initState).1.dwell ∧
      0 ≤ (whileLoop xO yO max_iter initState).1.dwell ∧
      (whileLoop xO yO max_iter initState).1.dwell ≤ max_iter := by
  obtain ⟨h2, h3⟩ := whileLoop_spec xO yO max_iter (max_iter - 0).toNat initState rfl
  have h4 : (initState : PixelState α).dwell = 0 := rfl
  rw [h4] at h2
  refine ⟨?_, by omega, by omega⟩
  unfold CalculatePixel
  exact toUnsigned_of_nonneg_lt _ (by omega) (by omega)

/-- Run from the same state, the loop with the smaller cap stops at the smaller of that cap
and the `dwell` reached with the larger cap. -/
theorem whileLoop_cap_min (xO yO : α) (m m' : Int) (hmm : m ≤ m') :
    ∀ (n : Nat) (s : PixelState α), (m - s.dwell).toNat = n → s.dwell ≤ m →
      (whileLoop xO yO m s).1.dwell = min m (whileLoop xO yO m' s).1.dwell := by
  intro n
  induction n with
  | zero =>
    intro s hs hle
    have hc : ¬ loopCond m s := by
      intro h
      have := h.2
      omega
    obtain ⟨h1, _⟩ := whileLoop_spec xO yO m' _ s rfl
    rw [whileLoop_of_not_cond xO yO m s hc, h1]
    show s.dwell = min m (s.dwell + _)
    omega
  | succ k ih =>
    intro s hs hle
    by_cases hq : s.x * s.x + s.y * s.y < (escape_radius : α) * escape_radius
    · have hc : loopCond m s := ⟨hq, by omega⟩
      have hc' : loopCond m' s := ⟨hq, by omega⟩
      rw [whileLoop_of_cond xO yO m s hc, whileLoop_of_cond xO yO m' s hc']
      apply ih (loopBody xO yO s)
      · rw [loopBody_dwell]
        omega
      · rw [loopBody_dwell]
        omega
    · have hc : ¬ loopCond m s := fun h => hq h.1
      have hc' : ¬ loopCond m' s := fun h => hq h.1
      rw [whileLoop_of_not_cond xO yO m s hc, whileLoop_of_not_cond xO yO m' s hc']
      show s.dwell = min m s.dwell
      omega

end CapFacts

/-- The first iteration always runs when the cap is positive and the guard holds at
`z = 0`. -/
theorem whileLoop_dwell_pos {α : Type} [OfScientific α] [Add α] [Sub α] [Mul α] [LT α]
    [DecidableRel (fun a b : α => a < b)]
    (hguard : (0.0 : α) * 0.0 + 0.0 * 0.0 < escape_radius * escape_radius)
    (xO yO : α) (max_iter : Int) (h : 1 ≤ max_iter) :
    1 ≤ (whileLoop xO yO max_iter initState).1.dwell := by
  have hc : loopCond max_iter (initState : PixelState α) := by
    refine ⟨hguard, ?_⟩
    show (0 : Int) < max_iter
    omega
  obtain ⟨h1, _⟩ := whileLoop_spec xO yO max_iter _ (loopBody xO yO initState) rfl
  rw [whileLoop_of_cond xO yO max_iter initState hc]
  show 1 ≤ (whileLoop xO yO max_iter (loopBody xO yO initState)).1.dwell
  rw [h1, loopBody_dwell]
  have h0 : (initState : PixelState α).dwell = 0 := rfl
  omega

theorem guard_at_zero_rat : (0.0 : ℚ) * 0.0 + 0.0 * 0.0 < escape_radius * escape_radius := by
  rw [escape_radius_sq_rat]
  norm_num

/-- The loop started at a state and at its mirror image about the real axis, for a point and
its mirror image, runs the same number of times and leaves the same `dwell`. -/
theorem whileLoop_mirror {α : Type} [OfScientific α] [Add α] [Sub α] [Mul α] [LT α]
    [DecidableRel (fun a b : α => a < b)] [Neg α] (E : α → α → Prop)
    (hE : SignSymmetric E) (xO yO : α) (max_iter : Int) :
    ∀ (n : Nat) (s t : PixelState α), (max_iter - s.dwell).toNat = n →
      E t.x s.x → E t.y (-s.y) → t.dwell = s.dwell →
      (whileLoop xO (-yO) max_iter t).1.dwell = (whileLoop xO yO max_iter s).1.dwell ∧
        (whileLoop xO (-yO) max_iter t).2 = (whileLoop xO yO max_iter s).2 := by
  intro n
  induction n with
  | zero =>
    intro s t hs _ _ hd
    have hc : ¬ loopCond max_iter s := by
      intro h
      have := h.2
      omega
    have hc' : ¬ loopCond max_iter t := by
      intro h
      have := h.2
      omega
    rw [whileLoop_of_not_cond _ _ _ _ hc, whileLoop_of_not_cond _ _ _ _ hc']
    exact ⟨hd, rfl⟩
  | succ k ih =>
    intro s t hs hx hy hd
    have hxx : E (t.x * t.x) (s.x * s.x) := hE.mul_congr hx hx
    have hyy : E (t.y * t.y) (s.y * s.y) :=
      hE.trans (hE.mul_congr hy hy) (hE.neg_mul_neg s.y)
    have hiff : loopCond max_iter t ↔ loopCond max_iter s := by
      unfold loopCond
      rw [hE.lt_congr (hE.add_congr hxx hyy) (hE.refl _), hd]
    by_cases hc : loopCond max_iter s
    · rw [whileLoop_of_cond _ _ _ _ hc, whileLoop_of_cond _ _ _ _ (hiff.mpr hc)]
      have hk : (max_iter - (loopBody xO yO s).dwell).toNat = k := by
        rw [loopBody_dwell]
        omega
      have hx' : E (loopBody xO (-yO) t).x (loopBody xO yO s).x := by
        show E (t.x * t.x - t.y * t.y + xO) (s.x * s.x - s.y * s.y + xO)
        exact hE.add_congr (hE.sub_congr hxx hyy) (hE.refl xO)
      have hy' : E (loopBody xO (-yO) t).y (-(loopBody xO yO s).y) := by
        show E (2.0 * t.x * t.y + -yO) (-(2.0 * s.x * s.y + yO))
        have h2x : E (2.0 * t.x) (2.0 * s.x) := hE.mul_congr (hE.refl _) hx
        have hp : E (2.0 * t.x * t.y) (-(2.0 * s.x * s.y)) :=
          hE.trans (hE.mul_congr h2x hy) (hE.mul_neg (2.0 * s.x) s.y)
        exact hE.trans (hE.add_congr hp (hE.refl (-yO))) (hE.neg_add_neg _ _)
      have hd' : (loopBody xO (-yO) t).dwell = (loopBody xO yO s).dwell := by
        rw [loopBody_dwell, loopBody_dwell, hd]
      obtain ⟨h1, h2⟩ := ih (loopBody xO yO s) (loopBody xO (-yO) t) hk hx' hy' hd'
      exact ⟨h1, by rw [h2]⟩
    · rw [whileLoop_of_not_cond _ _ _ _ hc,
        whileLoop_of_not_cond _ _ _ _ (fun h => hc (hiff.mp h))]
      exact ⟨hd, rfl⟩

/-- Exact arithmetic is sign-symmetric, with equality as the relation. -/
theorem signSymmetric_rat : SignSymmetric (fun a b : ℚ => a = b) where
  refl := fun _ => rfl
  trans := fun h1 h2 => h1.trans h2
  add_congr := fun h1 h2 => by rw [h1, h2]
  sub_congr := fun h1 h2 => by rw [h1, h2]
  mul_congr := fun h1 h2 => by rw [h1, h2]
  lt_congr := fun h1 h2 => by rw [h1, h2]
  neg_mul_neg := fun a => by ring
  mul_neg := fun a b => by ring
  neg_add_neg := fun a b => by ring
  zero_neg := by norm_num

/-! ## The claims -/

/-- C1: for every viewport and iteration cap, every arithmetic used for `double`, and every
initial buffer, whenever `num_blocks > 0` divides `pixels_y` (an `int`, so below `2^31`), the
buffer left by the tiled loop nest of `step3c` agrees with the buffer left by the single-pass
loop nest of `step2` at every index in `[0, pixels_x*pixels_y)`. -/
theorem C1_tiled_eq_single_pass {α : Type} [OfScientific α] [Add α] [Sub α] [Mul α] [LT α]
    [DecidableRel (fun a b : α => a < b)] [NatCast α]
    (v : Viewport α) (num_blocks : Nat) (pixels : Buffer)
    (hy : v.pixels_y < 2147483648) (_hn : 0 < num_blocks) (hd : num_blocks ∣ v.pixels_y) :
    ∀ i : Nat, i < v.pixels_x * v.pixels_y →
      step3c_loops v num_blocks pixels i = step2_loops v pixels i := by
  intro i _
  rw [step3c_loops_eq_step2_loops v num_blocks pixels hy hd]

/-- Witness for C1: a `3 × 4` viewport over `ℚ` tiled into `2` blocks. -/
theorem C1_tiled_eq_single_pass_witness :
    (sampleViewport.pixels_y < 2147483648 ∧ 0 < 2 ∧ 2 ∣ sampleViewport.pixels_y) ∧
      ∀ i : Nat, i < sampleViewport.pixels_x * sampleViewport.pixels_y →
        step3c_loops sampleViewport 2 sampleBuffer i = step2_loops sampleViewport sampleBuffer i :=
  ⟨⟨by decide, by decide, by decide⟩,
    C1_tiled_eq_single_pass sampleViewport 2 sampleBuffer (by decide) (by decide) (by decide)⟩

/-- C2: for every point `(xO, yO)`, every `pixel_size`, every arithmetic used for `double`
and every `max_iter ≥ 0`, the value returned by `CalculatePixel` satisfies
`0 ≤ dwell ≤ max_iter`. -/
theorem C2_dwell_bounds {α : Type} [OfScientific α] [Add α] [Sub α] [Mul α] [LT α]
    [DecidableRel (fun a b : α => a < b)]
    (xO yO pixel_size : α) (max_iter : Int) (h : 0 ≤ max_iter) :
    0 ≤ CalculatePixel xO yO pixel_size max_iter ∧
      (CalculatePixel xO yO pixel_size max_iter : Int) ≤ max_iter := by
  refine ⟨Nat.zero_le _, ?_⟩
  obtain ⟨h1, h2⟩ := whileLoop_spec xO yO max_iter (max_iter - 0).toNat initState rfl
  have h3 : (initState : PixelState α).dwell = 0 := rfl
  rw [h3] at h1
  unfold CalculatePixel
  have h4 := toUnsigned_le_of_nonneg (whileLoop xO yO max_iter initState).1.dwell (by omega)
  omega

/-- Witness for C2: the point `2 + 0i` over `ℚ` with the default cap `50`. -/
theorem C2_dwell_bounds_witness :
    (0 : Int) ≤ 50 ∧ (0 ≤ CalculatePixel (2 : ℚ) 0 0.0001 50 ∧
      (CalculatePixel (2 : ℚ) 0 0.0001 50 : Int) ≤ 50) :=
  ⟨by decide, C2_dwell_bounds (2 : ℚ) 0 0.0001 50 (by decide)⟩

/-- C3: with `num_blocks = 16` and `pixels_y = 20000` the block height is `1250`; and for every
`num_blocks > 0` dividing `pixels_y`, the row ranges `[y_start, y_stop)` of the blocks
`0 ≤ b < num_blocks` are pairwise disjoint and their union is exactly `[0, pixels_y)`. -/
theorem C3_partition (pixels_y num_blocks : Nat)
    (hy : pixels_y < 2147483648) (_hn : 0 < num_blocks) (hd : num_blocks ∣ pixels_y) :
    block_height 20000 16 = 1250 ∧
    (∀ b₁ b₂ r : Nat, b₁ < num_blocks → b₂ < num_blocks → b₁ ≠ b₂ →
      ¬ ((y_start b₁ (block_height pixels_y num_blocks) ≤ r ∧
            r < y_stop b₁ (block_height pixels_y num_blocks)) ∧
          (y_start b₂ (block_height pixels_y num_blocks) ≤ r ∧
            r < y_stop b₂ (block_height pixels_y num_blocks)))) ∧
    (∀ r : Nat, r < pixels_y ↔
      ∃ b : Nat, b < num_blocks ∧ y_start b (block_height pixels_y num_blocks) ≤ r ∧
        r < y_stop b (block_height pixels_y num_blocks)) := by
  have hcover := block_height_of_dvd pixels_y num_blocks hy hd
  refine ⟨by decide, ?_, ?_⟩
  · intro b₁ b₂ r h1 h2 hne
    rw [y_start_eq pixels_y num_blocks b₁ h1, y_stop_eq pixels_y num_blocks b₁ h1,
      y_start_eq pixels_y num_blocks b₂ h2, y_stop_eq pixels_y num_blocks b₂ h2]
    rintro ⟨⟨ha, hb⟩, hc, he⟩
    rcases Nat.lt_or_gt_of_ne hne with hlt | hlt
    · have : (b₁ + 1) * block_height pixels_y num_blocks ≤
          b₂ * block_height pixels_y num_blocks := Nat.mul_le_mul_right _ hlt
      omega
    · have : (b₂ + 1) * block_height pixels_y num_blocks ≤
          b₁ * block_height pixels_y num_blocks := Nat.mul_le_mul_right _ hlt
      omega
  · intro r
    constructor
    · intro hr
      have hpos : 0 < block_height pixels_y num_blocks := by
        rcases Nat.eq_zero_or_pos (block_height pixels_y num_blocks) with h0 | h0
        · rw [h0] at hcover; omega
        · exact h0
      have hb : r / block_height pixels_y num_blocks < num_blocks := by
        rw [Nat.div_lt_iff_lt_mul hpos]
        omega
      refine ⟨r / block_height pixels_y num_blocks, hb, ?_, ?_⟩
      · rw [y_start_eq pixels_y num_blocks _ hb]
        exact Nat.div_mul_le_self r _
      · rw [y_stop_eq pixels_y num_blocks _ hb]
        have hdm := Nat.div_add_mod r (block_height pixels_y num_blocks)
        have hlt := Nat.mod_lt r hpos
        have hexp : (r / block_height pixels_y num_blocks + 1) *
            block_height pixels_y num_blocks =
              block_height pixels_y num_blocks * (r / block_height pixels_y num_blocks) +
                block_height pixels_y num_blocks := by ring
        omega
    · rintro ⟨b, hb, _, h2⟩
      rw [y_stop_eq pixels_y num_blocks b hb] at h2
      have : (b + 1) * block_height pixels_y num_blocks ≤
          num_blocks * block_height pixels_y num_blocks := Nat.mul_le_mul_right _ hb
      omega

/-- Witness for C3: the default configuration, `16` blocks over `20000` rows. -/
theorem C3_partition_witness :
    ((20000 : Nat) < 2147483648 ∧ 0 < 16 ∧ 16 ∣ 20000) ∧
    (block_height 20000 16 = 1250 ∧
    (∀ b₁ b₂ r : Nat, b₁ < 16 → b₂ < 16 → b₁ ≠ b₂ →
      ¬ ((y_start b₁ (block_height 20000 16) ≤ r ∧ r < y_stop b₁ (block_height 20000 16)) ∧
          (y_start b₂ (block_height 20000 16) ≤ r ∧ r < y_stop b₂ (block_height 20000 16)))) ∧
    (∀ r : Nat, r < 20000 ↔
      ∃ b : Nat, b < 16 ∧ y_start b (block_height 20000 16) ≤ r ∧
        r < y_stop b (block_height 20000 16))) :=
  ⟨⟨by decide, by decide, by decide⟩, C3_partition 20000 16 (by decide) (by decide) (by decide)⟩

/-- C4: for every `pixels_x > 0`, every `pixels_y ≥ 0` and every `num_blocks > 0`, dividing
`pixels_y` or not, a buffer offset is written by at most one triple `(block, n_y, n_x)` with
`block` in `[0, num_blocks)`, `n_y` in `[y_start, y_stop)` of that block and `n_x` in
`[0, pixels_x)`: two such triples with the same offset `n_y*pixels_x + n_x` are equal. -/
theorem C4_written_once (pixels_x pixels_y num_blocks : Nat)
    (_hx : 0 < pixels_x) (_hn : 0 < num_blocks)
    (b₁ y₁ x₁ b₂ y₂ x₂ : Nat)
    (hb1 : b₁ < num_blocks)
    (hy1 : y_start b₁ (block_height pixels_y num_blocks) ≤ y₁ ∧
      y₁ < y_stop b₁ (block_height pixels_y num_blocks))
    (hx1 : x₁ < pixels_x)
    (hb2 : b₂ < num_blocks)
    (hy2 : y_start b₂ (block_height pixels_y num_blocks) ≤ y₂ ∧
      y₂ < y_stop b₂ (block_height pixels_y num_blocks))
    (hx2 : x₂ < pixels_x)
    (hoff : y₁ * pixels_x + x₁ = y₂ * pixels_x + x₂) :
    b₁ = b₂ ∧ y₁ = y₂ ∧ x₁ = x₂ := by
  have hy : y₁ = y₂ := row_unique_of_offset pixels_x y₁ x₁ y₂ x₂ hx1 hx2 hoff
  subst hy
  refine ⟨block_unique_of_row pixels_y num_blocks b₁ b₂ y₁ hb1 hb2 hy1 hy2, rfl, ?_⟩
  omega

/-- Witness for C4: `10` rows in `3` blocks (block height `3`, not a divisor), row `4` of
block `1`, column `2`, width `5`. -/
theorem C4_written_once_witness :
    ((0 < 5 ∧ 0 < 3) ∧ (1 < 3 ∧ (y_start 1 (block_height 10 3) ≤ 4 ∧
      4 < y_stop 1 (block_height 10 3)) ∧ 2 < 5) ∧ 4 * 5 + 2 = 4 * 5 + 2) ∧
    (1 = 1 ∧ 4 = 4 ∧ 2 = 2) :=
  ⟨⟨⟨by decide, by decide⟩, ⟨by decide, by decide, by decide⟩, by decide⟩,
    C4_written_once 5 10 3 (by decide) (by decide) 1 4 2 1 4 2 (by decide) (by decide)
      (by decide) (by decide) (by decide) (by decide) rfl⟩

/-- C5 as stated fails: with `max_iter = 16843011` and `dwell = 16843010` the product
`255*dwell = 2^32 + 254` wraps to `254` in `unsigned int`, so the stored byte is `0`, while
`floor(255*dwell / max_iter)` is `254`. -/
theorem C5_color_counterexample :
    ¬ (∀ (max_iter : Int) (dwell : Nat), 0 < max_iter → max_iter ≤ 2147483647 →
        (dwell : Int) ≤ max_iter →
        pixelColor dwell max_iter =
          if max_iter ≤ (dwell : Int) then 0 else 255 * dwell / max_iter.toNat) := by
  intro h
  have h1 := h 16843011 16843010 (by decide) (by decide) (by decide)
  revert h1
  decide

/-- C5 (amended): for every `max_iter` with `0 < max_iter ≤ 16843010` and every `dwell` in
`[0, max_iter]`, the byte stored by the loop body, computed in 32-bit unsigned arithmetic
and narrowed to `unsigned char`, is `0` if `dwell ≥ max_iter` and `floor(255*dwell / max_iter)`
otherwise; `dwell = 25` with `max_iter = 50` gives `127`, not `128`. -/
theorem C5_color_floor (max_iter : Int) (dwell : Nat)
    (h0 : 0 < max_iter) (hmax : max_iter ≤ 16843010) (hd : (dwell : Int) ≤ max_iter) :
    pixelColor dwell max_iter =
        (if max_iter ≤ (dwell : Int) then 0 else 255 * dwell / max_iter.toNat) ∧
      pixelColor 25 50 = 127 ∧ pixelColor 25 50 ≠ 128 := by
  refine ⟨?_, by decide, by decide⟩
  obtain ⟨m, rfl⟩ := Int.eq_ofNat_of_zero_le (le_of_lt h0)
  simp only [Int.toNat_ofNat]
  by_cases hge : (m : Int) ≤ (dwell : Int)
  · rw [if_pos hge]
    exact pixelColor_of_ge dwell m (by omega) (by omega)
  · rw [if_neg hge]
    exact pixelColor_of_lt dwell m (by omega) (by omega) (by omega)

/-- Witness for C5 (amended): the default cap `50` and `dwell = 25`. -/
theorem C5_color_floor_witness :
    ((0 : Int) < 50 ∧ (50 : Int) ≤ 16843010 ∧ ((25 : Nat) : Int) ≤ 50) ∧
      (pixelColor 25 50 =
        (if (50 : Int) ≤ ((25 : Nat) : Int) then 0 else 255 * 25 / (50 : Int).toNat) ∧
      pixelColor 25 50 = 127 ∧ pixelColor 25 50 ≠ 128) :=
  ⟨⟨by decide, by decide, by decide⟩, C5_color_floor 50 25 (by decide) (by decide) (by decide)⟩

/-- C6 as stated fails: for `c = 2 + 0i` and `max_iter = 50` the loop is entered, its first
iteration reaches `z = (2, 0)` with `x*x + y*y` exactly `4.0` and `dwell = 1 < 50`, and from
that state the loop performs no further iteration; the body runs once in total. -/
theorem C6_boundary_counterexample :
    loopCond 50 (initState : PixelState ℚ) ∧
    (loopBody (2.0 : ℚ) 0.0 initState).x * (loopBody (2.0 : ℚ) 0.0 initState).x +
      (loopBody (2.0 : ℚ) 0.0 initState).y * (loopBody (2.0 : ℚ) 0.0 initState).y = 4.0 ∧
    (loopBody (2.0 : ℚ) 0.0 initState).dwell = 1 ∧
    (loopBody (2.0 : ℚ) 0.0 initState).dwell < 50 ∧
    (whileLoop (2.0 : ℚ) 0.0 50 (loopBody 2.0 0.0 initState)).2 = 0 ∧
    CalculatePixel_iterations (2.0 : ℚ) 0.0 0.0001 50 = 1 := by
  have hc1 : ¬ loopCond 50 (loopBody (2.0 : ℚ) 0.0 initState) := by
    rw [loopCond_rat_iff, loopBody_rat_x, loopBody_rat_y, initState_rat_x, initState_rat_y]
    norm_num
  refine ⟨?_, ?_, rfl, by decide, ?_, ?_⟩
  · rw [loopCond_rat_iff, initState_rat_x, initState_rat_y]
    exact ⟨by norm_num, by decide⟩
  · rw [loopBody_rat_x, loopBody_rat_y, initState_rat_x, initState_rat_y]
    norm_num
  · rw [whileLoop_of_not_cond _ _ _ _ hc1]
  · unfold CalculatePixel_iterations
    rw [whileLoop_two 50 (by decide)]

/-- C6 (amended): in `CalculatePixel`, an orbit point whose squared magnitude `x*x + y*y`, as
the program computes it, is exactly `4.0` counts as escaped: from every such state, whatever
`dwell` and `max_iter` are, the loop stops without a further iteration and leaves the state
unchanged. This holds for every arithmetic used for `double` in which `4.0` is not below
`escape_radius*escape_radius` (for doubles `2.0*2.0` is `4.0` and `4.0 < 4.0` is false). -/
theorem C6_boundary_escapes {α : Type} [OfScientific α] [Add α] [Sub α] [Mul α] [LT α]
    [DecidableRel (fun a b : α => a < b)]
    (hbound : ¬ ((4.0 : α) < escape_radius * escape_radius))
    (xO yO : α) (max_iter : Int) (s : PixelState α)
    (h : s.x * s.x + s.y * s.y = 4.0) :
    whileLoop xO yO max_iter s = (s, 0) := by
  apply whileLoop_of_not_cond
  intro hc
  have h1 := hc.1
  rw [h] at h1
  exact hbound h1

/-- Witness for C6 (amended): exact arithmetic and the state `z = (2, 0)`, `dwell = 1`
reached for `c = 2 + 0i`. -/
theorem C6_boundary_escapes_witness :
    (¬ ((4.0 : ℚ) < escape_radius * escape_radius) ∧ ((2 : ℚ) * 2 + 0 * 0 = 4.0)) ∧
      whileLoop (2.0 : ℚ) 0.0 50 { x := 2, y := 0, dwell := 1 } =
        ({ x := 2, y := 0, dwell := 1 }, 0) :=
  ⟨⟨by rw [escape_radius_sq_rat]; norm_num, by norm_num⟩,
    C6_boundary_escapes
      (show ¬ ((4.0 : ℚ) < escape_radius * escape_radius) by
        rw [escape_radius_sq_rat]; norm_num)
      (2.0 : ℚ) 0.0 50 ({ x := 2, y := 0, dwell := 1 } : PixelState ℚ)
      (show (2 : ℚ) * 2 + 0 * 0 = 4.0 by norm_num)⟩

/-- C7: over exact arithmetic, for the point `c = -0.75 + 0i` and every `int` cap
`max_iter ≥ 0`, `CalculatePixel` returns `max_iter`, and the loop is left with squared
magnitude still below `4.0` (the orbit did not escape); with `max_iter = 50` the dwell is `50`
and the stored intensity is `0`. -/
theorem C7_center_dwell (pixel_size : ℚ) (max_iter : Int)
    (h0 : 0 ≤ max_iter) (h1 : max_iter ≤ 2147483647) :
    (CalculatePixel (-0.75 : ℚ) 0.0 pixel_size max_iter : Int) = max_iter ∧
    (whileLoop (-0.75 : ℚ) 0.0 max_iter initState).1.x *
        (whileLoop (-0.75 : ℚ) 0.0 max_iter initState).1.x +
      (whileLoop (-0.75 : ℚ) 0.0 max_iter initState).1.y *
        (whileLoop (-0.75 : ℚ) 0.0 max_iter initState).1.y < 4.0 ∧
    CalculatePixel (-0.75 : ℚ) 0.0 pixel_size 50 = 50 ∧
    pixelColor (CalculatePixel (-0.75 : ℚ) 0.0 pixel_size 50) 50 = 0 := by
  have hin : ∀ x y : ℚ, (-3 / 4 ≤ x ∧ x ≤ 0 ∧ y = 0) → x * x + y * y < 4 := by
    rintro x y ⟨ha, hb, rfl⟩
    nlinarith
  have h00 : (-3 / 4 : ℚ) ≤ 0 ∧ (0 : ℚ) ≤ 0 ∧ (0 : ℚ) = 0 := by norm_num
  have h50 : (CalculatePixel (-0.75 : ℚ) 0.0 pixel_size 50 : Int) = 50 :=
    CalculatePixel_confined (-0.75) 0.0 pixel_size 50 _ center_orbit_step hin h00
      (by decide) (by decide)
  have h50n : CalculatePixel (-0.75 : ℚ) 0.0 pixel_size 50 = 50 := by exact_mod_cast h50
  refine ⟨CalculatePixel_confined (-0.75) 0.0 pixel_size max_iter _ center_orbit_step hin h00
    h0 h1, ?_, h50n, ?_⟩
  · have hP : -3 / 4 ≤ (initState : PixelState ℚ).x ∧ (initState : PixelState ℚ).x ≤ 0 ∧
        (initState : PixelState ℚ).y = 0 := by
      rw [initState_rat_x, initState_rat_y]
      exact h00
    have hd : (initState : PixelState ℚ).dwell ≤ max_iter := h0
    have h4 : (4.0 : ℚ) = 4 := by norm_num
    rw [h4]
    exact hin _ _ (whileLoop_confined (-0.75) 0.0 max_iter _ center_orbit_step hin _ initState
      rfl hP hd).2
  · rw [h50n]
    decide

/-- Witness for C7: the default cap `50` and the default pixel size. -/
theorem C7_center_dwell_witness :
    ((0 : Int) ≤ 50 ∧ (50 : Int) ≤ 2147483647) ∧
    ((CalculatePixel (-0.75 : ℚ) 0.0 0.0001 50 : Int) = 50 ∧
    (whileLoop (-0.75 : ℚ) 0.0 50 initState).1.x *
        (whileLoop (-0.75 : ℚ) 0.0 50 initState).1.x +
      (whileLoop (-0.75 : ℚ) 0.0 50 initState).1.y *
        (whileLoop (-0.75 : ℚ) 0.0 50 initState).1.y < 4.0 ∧
    CalculatePixel (-0.75 : ℚ) 0.0 0.0001 50 = 50 ∧
    pixelColor (CalculatePixel (-0.75 : ℚ) 0.0 0.0001 50) 50 = 0) :=
  ⟨⟨by decide, by decide⟩, C7_center_dwell 0.0001 50 (by decide) (by decide)⟩

/-- C8: over exact arithmetic, for the point `c = 2 + 0i`, `CalculatePixel` returns `1` with
`max_iter = 50` and with every `max_iter ≥ 2`, and the intensity stored for it with
`max_iter = 50` is `floor(255*1/50) = 5`. -/
theorem C8_two_dwell (pixel_size : ℚ) (max_iter : Int) (h : 2 ≤ max_iter) :
    CalculatePixel (2.0 : ℚ) 0.0 pixel_size max_iter = 1 ∧
    CalculatePixel (2.0 : ℚ) 0.0 pixel_size 50 = 1 ∧
    pixelColor (CalculatePixel (2.0 : ℚ) 0.0 pixel_size 50) 50 = 5 ∧ 255 * 1 / 50 = 5 := by
  have hgen : ∀ m : Int, 1 ≤ m → CalculatePixel (2.0 : ℚ) 0.0 pixel_size m = 1 := by
    intro m hm
    unfold CalculatePixel
    rw [whileLoop_two m hm]
    rfl
  refine ⟨hgen max_iter (by omega), hgen 50 (by decide), ?_, by decide⟩
  rw [hgen 50 (by decide)]
  decide

/-- Witness for C8: the default cap `50` and the default pixel size. -/
theorem C8_two_dwell_witness :
    (2 : Int) ≤ 50 ∧
    (CalculatePixel (2.0 : ℚ) 0.0 0.0001 50 = 1 ∧
    CalculatePixel (2.0 : ℚ) 0.0 0.0001 50 = 1 ∧
    pixelColor (CalculatePixel (2.0 : ℚ) 0.0 0.0001 50) 50 = 5 ∧ 255 * 1 / 50 = 5) :=
  ⟨by decide, C8_two_dwell 0.0001 50 (by decide)⟩

/-- C9: over exact arithmetic, for the point `c = 0 + 0i` and every `int` cap
`max_iter ≥ 0`, `CalculatePixel` returns `max_iter`, the orbit is still at `z = 0` when the
loop is left, and the intensity stored for the point is `0`. -/
theorem C9_origin_dwell (pixel_size : ℚ) (max_iter : Int)
    (h0 : 0 ≤ max_iter) (h1 : max_iter ≤ 2147483647) :
    (CalculatePixel (0.0 : ℚ) 0.0 pixel_size max_iter : Int) = max_iter ∧
    ((whileLoop (0.0 : ℚ) 0.0 max_iter initState).1.x = 0 ∧
      (whileLoop (0.0 : ℚ) 0.0 max_iter initState).1.y = 0) ∧
    pixelColor (CalculatePixel (0.0 : ℚ) 0.0 pixel_size max_iter) max_iter = 0 := by
  have hin : ∀ x y : ℚ, (x = 0 ∧ y = 0) → x * x + y * y < 4 := by
    rintro x y ⟨rfl, rfl⟩
    norm_num
  have h00 : (0 : ℚ) = 0 ∧ (0 : ℚ) = 0 := ⟨rfl, rfl⟩
  have hval : (CalculatePixel (0.0 : ℚ) 0.0 pixel_size max_iter : Int) = max_iter :=
    CalculatePixel_confined 0.0 0.0 pixel_size max_iter _ origin_orbit_step hin h00 h0 h1
  refine ⟨hval, ?_, ?_⟩
  · have hP : (initState : PixelState ℚ).x = 0 ∧ (initState : PixelState ℚ).y = 0 :=
      ⟨initState_rat_x, initState_rat_y⟩
    have hd : (initState : PixelState ℚ).dwell ≤ max_iter := h0
    exact (whileLoop_confined 0.0 0.0 max_iter _ origin_orbit_step hin _ initState
      rfl hP hd).2
  · obtain ⟨m, rfl⟩ := Int.eq_ofNat_of_zero_le h0
    have hn : CalculatePixel (0.0 : ℚ) 0.0 pixel_size (m : Int) = m := by exact_mod_cast hval
    rw [hn]
    exact pixelColor_of_ge m m (by omega) (le_refl m)

/-- Witness for C9: the default cap `50` and the default pixel size. -/
theorem C9_origin_dwell_witness :
    ((0 : Int) ≤ 50 ∧ (50 : Int) ≤ 2147483647) ∧
    ((CalculatePixel (0.0 : ℚ) 0.0 0.0001 50 : Int) = 50 ∧
    ((whileLoop (0.0 : ℚ) 0.0 50 initState).1.x = 0 ∧
      (whileLoop (0.0 : ℚ) 0.0 50 initState).1.y = 0) ∧
    pixelColor (CalculatePixel (0.0 : ℚ) 0.0 0.0001 50) 50 = 0) :=
  ⟨⟨by decide, by decide⟩, C9_origin_dwell 0.0001 50 (by decide) (by decide)⟩

/-- C10: `CalculatePixel` is a total function of `(xO, yO, pixel_size, max_iter)` for every
arithmetic used for `double`: each execution of the loop body strictly decreases
`max_iter - dwell`, the body is executed at most `max(max_iter, 0)` times, and the `dwell`
returned is that number of executions. -/
theorem C10_terminates {α : Type} [OfScientific α] [Add α] [Sub α] [Mul α] [LT α]
    [DecidableRel (fun a b : α => a < b)]
    (xO yO pixel_size : α) (max_iter : Int) :
    (∀ s : PixelState α, loopCond max_iter s →
      (max_iter - (loopBody xO yO s).dwell).toNat < (max_iter - s.dwell).toNat) ∧
    (CalculatePixel_iterations xO yO pixel_size max_iter : Int) ≤ max max_iter 0 ∧
    CalculatePixel xO yO pixel_size max_iter =
      toUnsigned (CalculatePixel_iterations xO yO pixel_size max_iter) := by
  obtain ⟨h1, h2⟩ := whileLoop_spec xO yO max_iter (max_iter - 0).toNat initState rfl
  have h3 : (initState : PixelState α).dwell = 0 := rfl
  rw [h3] at h1
  refine ⟨?_, ?_, ?_⟩
  · intro s hs
    have := hs.2
    rw [loopBody_dwell]
    omega
  · unfold CalculatePixel_iterations
    omega
  · unfold CalculatePixel CalculatePixel_iterations
    rw [h1, Int.zero_add]

/-- C11: for every `num_blocks > 0` and every `pixels_y` (an `int`, so below `2^31`) that is
not a multiple of `num_blocks`, the trailing rows `[num_blocks*block_height, pixels_y)` exist,
and after the whole block loop the buffer at every offset `n_y*pixels_x + n_x` with `n_y` in
that range holds its initial content, whatever arithmetic stands for `double`. -/
theorem C11_trailing_rows_untouched {α : Type} [OfScientific α] [Add α] [Sub α] [Mul α]
    [LT α] [DecidableRel (fun a b : α => a < b)] [NatCast α]
    (v : Viewport α) (num_blocks : Nat) (pixels : Buffer)
    (hy : v.pixels_y < 2147483648) (_hn : 0 < num_blocks) (hnd : ¬ num_blocks ∣ v.pixels_y) :
    num_blocks * block_height v.pixels_y num_blocks < v.pixels_y ∧
    ∀ n_y n_x : Nat, num_blocks * block_height v.pixels_y num_blocks ≤ n_y →
      n_y < v.pixels_y →
      step3c_loops v num_blocks pixels (n_y * v.pixels_x + n_x) =
        pixels (n_y * v.pixels_x + n_x) := by
  constructor
  · have hle : num_blocks * block_height v.pixels_y num_blocks ≤ v.pixels_y := by
      unfold block_height
      rw [toUnsigned_natCast_lt v.pixels_y (by omega)]
      exact Nat.mul_div_le _ _
    rcases Nat.lt_or_eq_of_le hle with hlt | heq
    · exact hlt
    · exact absurd ⟨block_height v.pixels_y num_blocks, heq.symm⟩ hnd
  · intro n_y n_x h1 _
    apply step3c_loops_unchanged
    have h2 : num_blocks * block_height v.pixels_y num_blocks * v.pixels_x ≤
        n_y * v.pixels_x := Nat.mul_le_mul_right _ h1
    omega

/-- Witness for C11: the `3 × 4` sample viewport tiled into `3` blocks of height `1`, which
leaves row `3` undispatched. -/
theorem C11_trailing_rows_untouched_witness :
    (sampleViewport.pixels_y < 2147483648 ∧ 0 < 3 ∧ ¬ 3 ∣ sampleViewport.pixels_y) ∧
    (3 * block_height sampleViewport.pixels_y 3 < sampleViewport.pixels_y ∧
    ∀ n_y n_x : Nat, 3 * block_height sampleViewport.pixels_y 3 ≤ n_y →
      n_y < sampleViewport.pixels_y →
      step3c_loops sampleViewport 3 sampleBuffer (n_y * sampleViewport.pixels_x + n_x) =
        sampleBuffer (n_y * sampleViewport.pixels_x + n_x)) :=
  ⟨⟨by decide, by decide, by decide⟩,
    C11_trailing_rows_untouched sampleViewport 3 sampleBuffer (by decide) (by decide)
      (by decide)⟩

/-- C12: for every point `(xO, yO)` and every arithmetic used for `double`, `CalculatePixel`
with `max_iter = 0` returns `0`, and its loop body is never executed: the loop is left in the
initial state after `0` iterations. -/
theorem C12_zero_cap {α : Type} [OfScientific α] [Add α] [Sub α] [Mul α] [LT α]
    [DecidableRel (fun a b : α => a < b)] (xO yO pixel_size : α) :
    CalculatePixel xO yO pixel_size 0 = 0 ∧
    CalculatePixel_iterations xO yO pixel_size 0 = 0 ∧
    whileLoop xO yO 0 initState = (initState, 0) := by
  have hc : ¬ loopCond 0 (initState : PixelState α) := by
    intro h
    have h2 : (0 : Int) < 0 := h.2
    omega
  have hw := whileLoop_of_not_cond xO yO 0 initState hc
  refine ⟨?_, ?_, hw⟩
  · unfold CalculatePixel
    rw [hw]
    rfl
  · unfold CalculatePixel_iterations
    rw [hw]

/-- C13: the file written by `main` is the ASCII header `"P5\n<pixels_x> <pixels_y>\n255\n"`
with the dimensions in decimal, followed by exactly `pixels_x*pixels_y` bytes, byte `k` being
`pixels[k]`; for `27500 × 20000` the header is `"P5\n27500 20000\n255\n"` (19 bytes) and it
is followed by exactly `550000000` bytes. -/
theorem C13_pgm_output (pixels_x pixels_y : Nat) (pixels : Buffer) :
    String.mk (pgm_header pixels_x pixels_y) =
      "P5\n" ++ Nat.repr pixels_x ++ " " ++ Nat.repr pixels_y ++ "\n255\n" ∧
    (pgm_file pixels_x pixels_y pixels).take (pgm_header pixels_x pixels_y).length =
      (pgm_header pixels_x pixels_y).map Char.toNat ∧
    ((pgm_file pixels_x pixels_y pixels).drop (pgm_header pixels_x pixels_y).length).length =
      pixels_x * pixels_y ∧
    (∀ k : Nat, k < pixels_x * pixels_y →
      ((pgm_file pixels_x pixels_y pixels).drop (pgm_header pixels_x pixels_y).length)[k]? =
        some (pixels k)) ∧
    String.mk (pgm_header 27500 20000) = "P5\n27500 20000\n255\n" ∧
    (pgm_file 27500 20000 pixels).length = 19 + 550000000 := by
  have htake : (pgm_file pixels_x pixels_y pixels).take (pgm_header pixels_x pixels_y).length =
      (pgm_header pixels_x pixels_y).map Char.toNat := by
    unfold pgm_file
    rw [List.take_append_of_le_length (by simp)]
    simp
  have hdrop : (pgm_file pixels_x pixels_y pixels).drop (pgm_header pixels_x pixels_y).length =
      pgm_payload pixels_x pixels_y pixels := by
    unfold pgm_file
    rw [List.drop_append_of_le_length (by simp)]
    simp
  refine ⟨?_, htake, ?_, ?_, by decide, ?_⟩
  · apply String.ext
    simp only [String.data_append, List.append_assoc]
    rfl
  · rw [hdrop]
    simp [pgm_payload]
  · intro k hk
    rw [hdrop]
    simp [pgm_payload, hk]
  · have hlen : (pgm_header 27500 20000).length = 19 := by decide
    simp [pgm_file, pgm_payload, hlen]

/-- C15 as stated fails: block `0` (a block index of the default `16` blocks) is tagged with
`async` queue `1` for its compute and for its transfer, not with `0 mod 3 = 0`. -/
theorem C15_lane_counterexample :
    (0 < 16) ∧ compute_async 0 = 1 ∧ update_async 0 = 1 ∧
      compute_async 0 ≠ 0 % 3 ∧ update_async 0 ≠ 0 % 3 := by
  decide

/-- C15 (amended): for every block index `b`, the `async` queue with which the tiled `main`
tags block `b`'s compute and block `b`'s transfer is `(b mod 3) + 1`: the same queue for
both, one of `1, 2, 3`, and two blocks share a queue exactly when their indices agree
modulo `3`. -/
theorem C15_lane_assignment (b : Nat) :
    compute_async b = b % 3 + 1 ∧ update_async b = b % 3 + 1 ∧
    update_async b = compute_async b ∧
    (1 ≤ compute_async b ∧ compute_async b ≤ 3) ∧
    ∀ b' : Nat, compute_async b = compute_async b' ↔ b % 3 = b' % 3 := by
  refine ⟨rfl, rfl, rfl, ⟨?_, ?_⟩, ?_⟩
  · unfold compute_async
    omega
  · unfold compute_async
    omega
  · intro b'
    unfold compute_async
    omega

/-- C16: the iteration cap only truncates the escape time. For every point `(xO, yO)`, every
arithmetic used for `double` and all `int` caps `0 ≤ m ≤ m'`,
`CalculatePixel(xO, yO, _, m) = min(m, CalculatePixel(xO, yO, _, m'))`. -/
theorem C16_cap_truncates {α : Type} [OfScientific α] [Add α] [Sub α] [Mul α] [LT α]
    [DecidableRel (fun a b : α => a < b)]
    (xO yO pixel_size pixel_size' : α) (m m' : Int)
    (h0 : 0 ≤ m) (hmm : m ≤ m') (hmax : m' ≤ 2147483647) :
    (CalculatePixel xO yO pixel_size m : Int) =
      min m (CalculatePixel xO yO pixel_size' m' : Int) := by
  obtain ⟨h1, _, _⟩ := CalculatePixel_cast xO yO pixel_size m h0 (by omega)
  obtain ⟨h2, _, _⟩ := CalculatePixel_cast xO yO pixel_size' m' (by omega) hmax
  rw [h1, h2]
  exact whileLoop_cap_min xO yO m m' hmm _ initState rfl h0

/-- Witness for C16: the point `2 + 0i` over `ℚ` with caps `50` and `100`. -/
theorem C16_cap_truncates_witness :
    ((0 : Int) ≤ 50 ∧ (50 : Int) ≤ 100 ∧ (100 : Int) ≤ 2147483647) ∧
    (CalculatePixel (2.0 : ℚ) 0.0 0.0001 50 : Int) =
      min 50 (CalculatePixel (2.0 : ℚ) 0.0 0.0001 100 : Int) :=
  ⟨⟨by decide, by decide, by decide⟩,
    C16_cap_truncates (2.0 : ℚ) 0.0 0.0001 0.0001 50 100 (by decide) (by decide) (by decide)⟩

/-- C17: for every cap with `1 ≤ max_iter ≤ 255` and every point `(xO, yO)`, the first
iteration runs (`dwell ≥ 1`), and the stored intensity is `0` if and only if the dwell equals
`max_iter`. This holds for every arithmetic used for `double` in which the loop guard
`x*x + y*y < escape_radius*escape_radius` holds at the initial `z = (0.0, 0.0)` (for doubles
`0.0 < 4.0`), whatever the point is. -/
theorem C17_black_iff_cap {α : Type} [OfScientific α] [Add α] [Sub α] [Mul α] [LT α]
    [DecidableRel (fun a b : α => a < b)]
    (hguard : (0.0 : α) * 0.0 + 0.0 * 0.0 < escape_radius * escape_radius)
    (xO yO pixel_size : α) (max_iter : Int)
    (h1 : 1 ≤ max_iter) (h2 : max_iter ≤ 255) :
    1 ≤ CalculatePixel xO yO pixel_size max_iter ∧
    (pixelColor (CalculatePixel xO yO pixel_size max_iter) max_iter = 0 ↔
      (CalculatePixel xO yO pixel_size max_iter : Int) = max_iter) := by
  obtain ⟨hc, _, hle⟩ := CalculatePixel_cast xO yO pixel_size max_iter (by omega) (by omega)
  have hpos := whileLoop_dwell_pos hguard xO yO max_iter h1
  rw [← hc] at hle hpos
  obtain ⟨m, rfl⟩ := Int.eq_ofNat_of_zero_le (show 0 ≤ max_iter by omega)
  generalize CalculatePixel xO yO pixel_size (m : Int) = d at hle hpos
  have hd1 : 1 ≤ d := by exact_mod_cast hpos
  have hdm : d ≤ m := by exact_mod_cast hle
  have hm : m ≤ 255 := by exact_mod_cast h2
  refine ⟨hd1, ?_⟩
  constructor
  · intro hzero
    by_contra hne
    have hlt : d < m := by
      rcases Nat.lt_or_eq_of_le hdm with h | h
      · exact h
      · exact absurd (by exact_mod_cast h) hne
    rw [pixelColor_of_lt d m (by omega) hlt (by omega)] at hzero
    have hq : 0 < 255 * d / m := Nat.div_pos (by omega) (by omega)
    omega
  · intro heq
    have hdm' : d = m := by exact_mod_cast heq
    rw [hdm']
    exact pixelColor_of_ge m m (by omega) (le_refl m)

/-- Witness for C17: exact arithmetic, the point `2 + 0i` and the default cap `50`. -/
theorem C17_black_iff_cap_witness :
    (((0.0 : ℚ) * 0.0 + 0.0 * 0.0 < escape_radius * escape_radius) ∧
      (1 : Int) ≤ 50 ∧ (50 : Int) ≤ 255) ∧
    (1 ≤ CalculatePixel (2.0 : ℚ) 0.0 0.0001 50 ∧
    (pixelColor (CalculatePixel (2.0 : ℚ) 0.0 0.0001 50) 50 = 0 ↔
      (CalculatePixel (2.0 : ℚ) 0.0 0.0001 50 : Int) = 50)) :=
  ⟨⟨guard_at_zero_rat, by decide, by decide⟩,
    C17_black_iff_cap guard_at_zero_rat (2.0 : ℚ) 0.0 0.0001 50 (by decide) (by decide)⟩

/-- C18: for every `int` cap `max_iter` in `[1, 2^31 - 1]` and every `dwell` in
`[0, max_iter]`, the value assigned to the pixel, computed with 32-bit unsigned wrap-around
of `255*iteration`, is at most `254` before narrowing, so the conversion to `unsigned char`
does not change it and the intensity `255` is never stored. -/
theorem C18_never_white (max_iter : Int) (dwell : Nat)
    (h1 : 1 ≤ max_iter) (h2 : max_iter ≤ 2147483647) (_hd : (dwell : Int) ≤ max_iter) :
    pixelColorWide dwell max_iter ≤ 254 ∧
    pixelColor dwell max_iter = pixelColorWide dwell max_iter ∧
    pixelColor dwell max_iter ≠ 255 := by
  obtain ⟨m, rfl⟩ := Int.eq_ofNat_of_zero_le (show 0 ≤ max_iter by omega)
  have hm : m < 4294967296 := by omega
  have hwide : pixelColorWide dwell (m : Int) ≤ 254 := by
    unfold pixelColorWide
    rw [toUnsigned_natCast_lt m hm]
    by_cases hge : dwell ≥ m
    · rw [if_pos hge]
      omega
    · rw [if_neg hge]
      have hx : umul 255 dwell ≤ 255 * dwell := by
        unfold umul
        exact Nat.mod_le _ _
      have hq : umul 255 dwell / m < 255 := by
        rw [Nat.div_lt_iff_lt_mul (by omega)]
        omega
      omega
  have heq : pixelColor dwell (m : Int) = pixelColorWide dwell (m : Int) := by
    have hnarrow : toUChar (pixelColorWide dwell (m : Int)) = pixelColorWide dwell (m : Int) := by
      unfold toUChar
      exact Nat.mod_eq_of_lt (by omega)
    rw [← hnarrow]
    unfold pixelColor pixelColorWide
    split <;> rfl
  refine ⟨hwide, heq, ?_⟩
  rw [heq]
  omega

/-- Witness for C18: the largest cap, `2^31 - 1`, and a dwell whose product with `255`
wraps. -/
theorem C18_never_white_witness :
    ((1 : Int) ≤ 2147483647 ∧ (2147483647 : Int) ≤ 2147483647 ∧
      ((33554432 : Nat) : Int) ≤ 2147483647) ∧
    (pixelColorWide 33554432 2147483647 ≤ 254 ∧
    pixelColor 33554432 2147483647 = pixelColorWide 33554432 2147483647 ∧
    pixelColor 33554432 2147483647 ≠ 255) :=
  ⟨⟨by decide, by decide, by decide⟩,
    C18_never_white 2147483647 33554432 (by decide) (by decide) (by decide)⟩

/-- C19: the dwell is symmetric about the real axis. For every `xO`, `yO` and `max_iter`,
`CalculatePixel(xO, -yO, _, max_iter) = CalculatePixel(xO, yO, _, max_iter)`, and the loop body
runs the same number of times for both points. This holds for every sign-symmetric arithmetic
used for `double` (`SignSymmetric`): the orbit of the mirror point is the mirror orbit, with
the same squared magnitude at every step up to numerical equality. -/
theorem C19_mirror_symmetry {α : Type} [OfScientific α] [Add α] [Sub α] [Mul α] [LT α]
    [DecidableRel (fun a b : α => a < b)] [Neg α] (E : α → α → Prop)
    (hE : SignSymmetric E) (xO yO pixel_size pixel_size' : α) (max_iter : Int) :
    CalculatePixel xO (-yO) pixel_size max_iter = CalculatePixel xO yO pixel_size' max_iter ∧
    CalculatePixel_iterations xO (-yO) pixel_size max_iter =
      CalculatePixel_iterations xO yO pixel_size' max_iter := by
  have hx : E (initState : PixelState α).x (initState : PixelState α).x := hE.refl _
  have hy : E (initState : PixelState α).y (-(initState : PixelState α).y) := hE.zero_neg
  obtain ⟨h1, h2⟩ :=
    whileLoop_mirror E hE xO yO max_iter _ initState initState rfl hx hy rfl
  constructor
  · unfold CalculatePixel
    rw [h1]
  · unfold CalculatePixel_iterations
    rw [h2]

/-- Witness for C19: exact arithmetic, the points `-0.5 ± 0.75i` and the default cap. -/
theorem C19_mirror_symmetry_witness :
    SignSymmetric (fun a b : ℚ => a = b) ∧
    (CalculatePixel (-0.5 : ℚ) (-0.75) 0.0001 50 = CalculatePixel (-0.5 : ℚ) 0.75 0.0001 50 ∧
    CalculatePixel_iterations (-0.5 : ℚ) (-0.75) 0.0001 50 =
      CalculatePixel_iterations (-0.5 : ℚ) 0.75 0.0001 50) :=
  ⟨signSymmetric_rat,
    C19_mirror_symmetry (fun a b : ℚ => a = b) signSymmetric_rat (-0.5 : ℚ) 0.75 0.0001
      0.0001 50⟩

end Mandelbrot
